import Mathlib

/-!
Verification development for the chart_for_data repository.

The repository consists of three Go programs sharing one pipeline:
fetch tab-separated market data over HTTP, decode rows into fixed-schema
records, and display a sliding window of the price / open-interest series
(a termui chart, an ASCII chart, and a web viewer).

This file shallowly embeds the pure parts of that pipeline:
* `GoFloat` models Go `float64` values as exact rationals extended with
  the two infinities and NaN (IEEE semantics for the operations used by
  the sources; rounding is idealised away, signed zero is collapsed to 0).
* `findMin` / `findMax` / `calculateAverage` / `normalizeData` embed the
  helpers of `main.go` over exact rationals (their finite behaviour);
  `findMinGF` / `findMaxGF` embed the same helpers over `GoFloat` where
  non-finite inputs matter.
* `webFindMin` / `webFindMax` / `webCalculateAverage` /
  `webNormalizeToRange` embed the helpers of `web_chart_viewer.go`.
* `goParseUint` / `goParseInt` / `goParseFloat` / `goParseTime` model the
  Go standard-library conversions exactly as documented for the inputs the
  parser feeds them (decimal forms; `strconv` returns the clamped extreme
  value together with an error on range overflow).
* `parseLine` / `parseTabSeparatedData` embed `parseTabSeparatedData` of
  `main.go`.
* `updateChartWindow` / `asciiChartWindow` / `chartStep` embed the window
  arithmetic and the event handling of `createChart` and
  `createASCIIChart`.
* `webTransmit` embeds the final serialization guard of `webDataHandler`.
-/

/-- A Go `float64` value: an exact rational (rounding idealised away),
one of the two infinities, or NaN.  Signed zero is collapsed to `0`. -/
inductive GoFloat where
  | finite (q : ℚ)
  | posInf
  | negInf
  | nan
deriving DecidableEq, Repr

/-- `!math.IsInf(v, 0) && !math.IsNaN(v)`. -/
def GoFloat.isFinite : GoFloat → Bool
  | .finite _ => true
  | _ => false

/-- Go `<` on float64: any comparison with NaN is false. -/
def GoFloat.goLt : GoFloat → GoFloat → Bool
  | .nan, _ => false
  | _, .nan => false
  | .negInf, .negInf => false
  | .negInf, _ => true
  | _, .negInf => false
  | .posInf, _ => false
  | .finite _, .posInf => true
  | .finite a, .finite b => decide (a < b)

/-- Go `==` on float64: NaN is not equal to anything, including itself. -/
def GoFloat.goEq : GoFloat → GoFloat → Bool
  | .nan, _ => false
  | _, .nan => false
  | .posInf, .posInf => true
  | .negInf, .negInf => true
  | .finite a, .finite b => decide (a = b)
  | _, _ => false

/-- IEEE negation. -/
def GoFloat.neg : GoFloat → GoFloat
  | .nan => .nan
  | .posInf => .negInf
  | .negInf => .posInf
  | .finite a => .finite (-a)

/-- IEEE addition (exact on finite values). -/
def GoFloat.add : GoFloat → GoFloat → GoFloat
  | .nan, _ => .nan
  | _, .nan => .nan
  | .posInf, .negInf => .nan
  | .negInf, .posInf => .nan
  | .posInf, _ => .posInf
  | _, .posInf => .posInf
  | .negInf, _ => .negInf
  | _, .negInf => .negInf
  | .finite a, .finite b => .finite (a + b)

/-- IEEE subtraction, `x - y = x + (-y)`. -/
def GoFloat.sub (x y : GoFloat) : GoFloat := x.add y.neg

/-- IEEE multiplication; `0 * inf = NaN`. -/
def GoFloat.mul : GoFloat → GoFloat → GoFloat
  | .nan, _ => .nan
  | _, .nan => .nan
  | .finite a, .finite b => .finite (a * b)
  | .finite a, .posInf => if 0 < a then .posInf else if a < 0 then .negInf else .nan
  | .finite a, .negInf => if 0 < a then .negInf else if a < 0 then .posInf else .nan
  | .posInf, .finite b => if 0 < b then .posInf else if b < 0 then .negInf else .nan
  | .negInf, .finite b => if 0 < b then .negInf else if b < 0 then .posInf else .nan
  | .posInf, .posInf => .posInf
  | .posInf, .negInf => .negInf
  | .negInf, .posInf => .negInf
  | .negInf, .negInf => .posInf

/-- IEEE division; `inf / inf = NaN`, `x / 0` gives a signed infinity
(or NaN for `0 / 0`), `finite / inf = 0` (signed zero collapsed). -/
def GoFloat.div : GoFloat → GoFloat → GoFloat
  | .nan, _ => .nan
  | _, .nan => .nan
  | .posInf, .posInf => .nan
  | .posInf, .negInf => .nan
  | .negInf, .posInf => .nan
  | .negInf, .negInf => .nan
  | .posInf, .finite b => if b < 0 then .negInf else .posInf
  | .negInf, .finite b => if b < 0 then .posInf else .negInf
  | .finite _, .posInf => .finite 0
  | .finite _, .negInf => .finite 0
  | .finite a, .finite b =>
      if b = 0 then (if a = 0 then .nan else if 0 < a then .posInf else .negInf)
      else .finite (a / b)

/-- `findMax` of `main.go` over exact rationals:
`max := data[0]`, then a linear scan with `if val > max`. -/
def findMax : List ℚ → ℚ
  | [] => 0
  | d :: rest => (d :: rest).foldl (fun m v => if m < v then v else m) d

/-- `findMin` of `main.go` over exact rationals:
`min := data[0]`, then a linear scan with `if val < min`. -/
def findMin : List ℚ → ℚ
  | [] => 0
  | d :: rest => (d :: rest).foldl (fun m v => if v < m then v else m) d

/-- `calculateAverage` of `main.go` over exact rationals. -/
def calculateAverage (data : List ℚ) : ℚ :=
  if data.length = 0 then 0
  else (data.foldl (fun s v => s + v) 0) / (data.length : ℚ)

/-- `findMax` of `main.go` over the full float domain (no non-finite
filtering; Go `>` comparison). -/
def findMaxGF : List GoFloat → GoFloat
  | [] => .finite 0
  | d :: rest => (d :: rest).foldl (fun m v => if m.goLt v then v else m) d

/-- `findMin` of `main.go` over the full float domain. -/
def findMinGF : List GoFloat → GoFloat
  | [] => .finite 0
  | d :: rest => (d :: rest).foldl (fun m v => if v.goLt m then v else m) d

/-- `normalizeData` of `main.go` over exact rationals: map `source`
linearly from its own range onto the range of `target`. -/
def normalizeData (source target : List ℚ) : List ℚ :=
  if source.length = 0 ∨ target.length = 0 then source
  else
    let sourceMin := findMin source
    let sourceMax := findMax source
    let targetMin := findMin target
    let targetMax := findMax target
    if sourceMax = sourceMin then source
    else source.map (fun val =>
      targetMin + (val - sourceMin) * (targetMax - targetMin) / (sourceMax - sourceMin))

/-- The loop body of `webFindMax`: skip non-finite values, otherwise
take the value if there is no valid value yet or it beats the running
maximum (`!hasValidValue || val > max`). -/
def webMaxStep (st : GoFloat × Bool) (val : GoFloat) : GoFloat × Bool :=
  if val.isFinite then
    if !st.2 || st.1.goLt val then (val, true) else st
  else st

/-- The loop body of `webFindMin`. -/
def webMinStep (st : GoFloat × Bool) (val : GoFloat) : GoFloat × Bool :=
  if val.isFinite then
    if !st.2 || val.goLt st.1 then (val, true) else st
  else st

/-- The loop body of `webCalculateAverage`: running sum and valid-value
count, skipping non-finite values. -/
def webAvgStep (st : GoFloat × Nat) (val : GoFloat) : GoFloat × Nat :=
  if val.isFinite then (st.1.add val, st.2 + 1) else st

/-- `webFindMax` of `web_chart_viewer.go`: linear scan starting from
`var max float64` (= 0) and a `hasValidValue` flag, skipping values that
are infinite or NaN. -/
def webFindMax (data : List GoFloat) : GoFloat :=
  if data.length = 0 then .finite 0
  else
    let r := data.foldl webMaxStep (.finite 0, false)
    if !r.2 then .finite 0 else r.1

/-- `webFindMin` of `web_chart_viewer.go`. -/
def webFindMin (data : List GoFloat) : GoFloat :=
  if data.length = 0 then .finite 0
  else
    let r := data.foldl webMinStep (.finite 0, false)
    if !r.2 then .finite 0 else r.1

/-- `webCalculateAverage` of `web_chart_viewer.go`: sum and count only
the finite values; 0 if none. -/
def webCalculateAverage (data : List GoFloat) : GoFloat :=
  if data.length = 0 then .finite 0
  else
    let r := data.foldl webAvgStep (.finite 0, 0)
    if r.2 = 0 then .finite 0 else r.1.div (.finite (r.2 : ℚ))

/-- `webNormalizeToRange` of `web_chart_viewer.go` (same shape as
`normalizeData` but with the filtered min/max helpers and float
arithmetic on each element). -/
def webNormalizeToRange (source target : List GoFloat) : List GoFloat :=
  if source.length = 0 ∨ target.length = 0 then source
  else
    let sourceMin := webFindMin source
    let sourceMax := webFindMax source
    let targetMin := webFindMin target
    let targetMax := webFindMax target
    if sourceMax.goEq sourceMin then source
    else source.map (fun val =>
      targetMin.add (((val.sub sourceMin).mul (targetMax.sub targetMin)).div
        (sourceMax.sub sourceMin)))

/-- `strings.Split(s, sep)` for a one-character separator, over
`List Char`.  `Split("", sep) = [""]`; a non-separator character is
prepended to the first piece of the remaining split (which is never
empty). -/
def splitOnChar (c : Char) : List Char → List (List Char)
  | [] => [[]]
  | x :: xs =>
    if x = c then [] :: splitOnChar c xs
    else (x :: (splitOnChar c xs).headI) :: (splitOnChar c xs).tail

/-- Joining fields with a one-character separator (inverse of
`splitOnChar` when no field contains the separator). -/
def joinSep (c : Char) : List (List Char) → List Char
  | [] => []
  | [f] => f
  | f :: g :: rest => f ++ c :: joinSep c (g :: rest)

/-- ASCII whitespace recognised by `strings.TrimSpace`. -/
def isSpaceChar (c : Char) : Bool :=
  c = ' ' || c = '\t' || c = '\n' || c = '\r' || c = Char.ofNat 11 || c = Char.ofNat 12

/-- `strings.TrimSpace` (ASCII whitespace; the sources never feed it
non-ASCII whitespace). -/
def goTrimSpace (l : List Char) : List Char :=
  ((l.dropWhile isSpaceChar).reverse.dropWhile isSpaceChar).reverse

/-- Decimal digit test. -/
def isDigit (c : Char) : Bool := '0' ≤ c && c ≤ '9'

/-- Numeric value of a decimal digit character. -/
def digitVal (c : Char) : Nat := c.toNat - ('0').toNat

/-- Value of a (non-empty, all-digit) decimal digit string. -/
def natFromDigits (l : List Char) : Nat :=
  l.foldl (fun acc c => acc * 10 + digitVal c) 0

/-- All-digit test plus non-emptiness: the strings `strconv` accepts as
an unsigned base-10 integer body. -/
def allDigits (l : List Char) : Bool :=
  decide (l ≠ []) && l.all isDigit

/-- `strconv.ParseUint(s, 10, bits)` returned as (value, ok).  As
documented, a range overflow returns the maximum value of the bit size
together with an error (`ok = false`); a syntax error returns 0. -/
def goParseUint (s : List Char) (bits : Nat) : Nat × Bool :=
  if allDigits s then
    let n := natFromDigits s
    if n ≤ 2 ^ bits - 1 then (n, true) else (2 ^ bits - 1, false)
  else (0, false)

/-- `strconv.ParseInt(s, 10, bits)` returned as (value, ok).  A range
overflow returns the maximum-magnitude value of the appropriate sign
together with an error; a syntax error returns 0. -/
def goParseInt (s : List Char) (bits : Nat) : Int × Bool :=
  match s with
  | '-' :: rest =>
    if allDigits rest then
      let n := natFromDigits rest
      if (n : Int) ≤ 2 ^ (bits - 1) then (-(n : Int), true)
      else (-((2 : Int) ^ (bits - 1)), false)
    else (0, false)
  | '+' :: rest =>
    if allDigits rest then
      let n := natFromDigits rest
      if (n : Int) ≤ 2 ^ (bits - 1) - 1 then ((n : Int), true)
      else ((2 : Int) ^ (bits - 1) - 1, false)
    else (0, false)
  | _ =>
    if allDigits s then
      let n := natFromDigits s
      if (n : Int) ≤ 2 ^ (bits - 1) - 1 then ((n : Int), true)
      else ((2 : Int) ^ (bits - 1) - 1, false)
    else (0, false)

/-- `strconv.ParseFloat` returned as (value, ok), modelled for the plain
decimal forms the data source emits: optional sign, an integer part
and/or a fractional part with at least one digit overall.  Exponent,
hexadecimal and inf/nan spellings, float range overflow and rounding to
the requested bit size are idealised away (the sources immediately use
the value as an exact number). -/
def goParseFloat (s : List Char) : ℚ × Bool :=
  let signRest : ℚ × List Char :=
    match s with
    | '-' :: r => (-1, r)
    | '+' :: r => (1, r)
    | r => (1, r)
  let sign := signRest.1
  let rest := signRest.2
  let intPart := rest.takeWhile isDigit
  let rest2 := rest.dropWhile isDigit
  match rest2 with
  | [] =>
    if intPart = [] then (0, false)
    else (sign * (natFromDigits intPart : ℚ), true)
  | '.' :: frac =>
    if frac.all isDigit && !(decide (intPart = []) && decide (frac = [])) then
      (sign * ((natFromDigits intPart : ℚ) +
        (natFromDigits frac : ℚ) / ((10 : ℚ) ^ frac.length)), true)
    else (0, false)
  | _ => (0, false)

/-- A parsed wall-clock time, the result of `time.Parse` with the layout
`"2006-01-02 15:04:05"`. -/
structure GoTime where
  year : Nat
  month : Nat
  day : Nat
  hour : Nat
  minute : Nat
  second : Nat
deriving DecidableEq, Repr

/-- Gregorian leap-year rule (as in Go's `time` package). -/
def isLeapYear (y : Nat) : Bool :=
  (y % 4 = 0 && y % 100 ≠ 0) || y % 400 = 0

/-- Days in a month, as validated by `time.Parse`. -/
def daysInMonth (y m : Nat) : Nat :=
  if m = 2 then (if isLeapYear y then 29 else 28)
  else if m = 4 ∨ m = 6 ∨ m = 9 ∨ m = 11 then 30
  else 31

/-- `time.Parse("2006-01-02 15:04:05", s)`: the layout requires exactly
four year digits, two digits for every other component, the literal
separators, and in-range component values; anything else is an error. -/
def goParseTime (s : List Char) : Option GoTime :=
  match s with
  | [y1, y2, y3, y4, '-', m1, m2, '-', d1, d2, ' ',
     h1, h2, ':', n1, n2, ':', s1, s2] =>
    if [y1, y2, y3, y4, m1, m2, d1, d2, h1, h2, n1, n2, s1, s2].all isDigit then
      let y := natFromDigits [y1, y2, y3, y4]
      let mo := natFromDigits [m1, m2]
      let d := natFromDigits [d1, d2]
      let h := natFromDigits [h1, h2]
      let mi := natFromDigits [n1, n2]
      let se := natFromDigits [s1, s2]
      if 1 ≤ mo && mo ≤ 12 && 1 ≤ d && d ≤ daysInMonth y mo
          && h ≤ 23 && mi ≤ 59 && se ≤ 59 then
        some ⟨y, mo, d, h, mi, se⟩
      else none
    else none
  | _ => none

/-- One decoded market-data record (`MarketData` of `main.go`).  The
float32 fields are idealised as exact rationals; the fixed-width integer
fields stay in range because the parser's conversions clamp them. -/
structure MarketData where
  symbol : List Char
  time : GoTime
  price : ℚ
  vol : Nat
  openInterest : Nat
  diffVol : Int
  diffOI : Int
  bid1 : ℚ
  bidVolumn1 : Nat
  ask1 : ℚ
  askVolumn1 : Nat
  dateTime : Nat
deriving DecidableEq, Repr

/-- The body of the row loop of `parseTabSeparatedData` (`main.go`):
skip empty lines and lines with fewer than 12 tab-separated fields;
skip the row if the timestamp, price, volume or open-interest field
fails to parse; take the best-effort value (error ignored) for the
remaining fields. -/
def parseLine (line : List Char) : Option MarketData :=
  if line = [] then none
  else
    let fields := splitOnChar '\t' line
    if fields.length < 12 then none
    else
      match goParseTime (fields.getD 1 []) with
      | none => none
      | some t =>
        match goParseFloat (fields.getD 2 []) with
        | (_, false) => none
        | (price, true) =>
          match goParseUint (fields.getD 3 []) 32 with
          | (_, false) => none
          | (vol, true) =>
            match goParseUint (fields.getD 4 []) 32 with
            | (_, false) => none
            | (openInterest, true) =>
              some
                { symbol := fields.getD 0 []
                  time := t
                  price := price
                  vol := vol
                  openInterest := openInterest
                  diffVol := (goParseInt (fields.getD 5 []) 32).1
                  diffOI := (goParseInt (fields.getD 6 []) 32).1
                  bid1 := (goParseFloat (fields.getD 7 [])).1
                  bidVolumn1 := (goParseUint (fields.getD 8 []) 32).1
                  ask1 := (goParseFloat (fields.getD 9 [])).1
                  askVolumn1 := (goParseUint (fields.getD 10 []) 32).1
                  dateTime := (goParseUint (fields.getD 11 []) 64).1 }

/-- `parseTabSeparatedData` of `main.go`: trim the payload, split it
into lines, decode each line independently, keep the successes. -/
def parseTabSeparatedData (data : List Char) : List MarketData :=
  (splitOnChar '\n' (goTrimSpace data)).filterMap parseLine

/-- The fixed window size of the terminal variants. -/
def WINDOW_SIZE : Int := 200

/-- The window computation at the top of the `updateChart` closure of
`createChart` (`main.go`, termui variant): clamp the end to the series
length; if the start has run past the end of the series, set it to
`totalRecords - WINDOW_SIZE` (floored at 0) and use the full tail as the
window. -/
def updateChartWindow (windowStart totalRecords : Int) : Int × Int :=
  let windowEnd := windowStart + WINDOW_SIZE
  let windowEnd := if windowEnd > totalRecords then totalRecords else windowEnd
  if windowStart ≥ totalRecords then
    let ws := totalRecords - WINDOW_SIZE
    let ws := if ws < 0 then 0 else ws
    (ws, totalRecords)
  else
    (windowStart, windowEnd)

/-- The window computation of `createASCIIChart` (ASCII variant): clamp
the end to the series length; if the start has run past the end of the
series, wrap to `start = 0` and recompute the end. -/
def asciiChartWindow (windowStart totalRecords : Int) : Int × Int :=
  let windowEnd := windowStart + WINDOW_SIZE
  let windowEnd := if windowEnd > totalRecords then totalRecords else windowEnd
  if windowStart ≥ totalRecords then
    let ws : Int := 0
    let we := WINDOW_SIZE
    let we := if we > totalRecords then totalRecords else we
    (ws, we)
  else
    (windowStart, windowEnd)

/-- The mutable state of the `createChart` event loop: the held series
and the window start (`totalRecords` is always `len(allData)`). -/
structure ChartState where
  allData : List MarketData
  windowStart : Int

/-- An event consumed by the `createChart` loop.  A refresh carries the
outcome of `queryMarketData()`: `none` for a failed fetch, `some d` for
a successfully fetched and decoded series. -/
inductive ChartEvent where
  | quit
  | refresh (result : Option (List MarketData))
  | resize
  | left
  | right
  | tick

/-- The state transition of the `createChart` event loop (`main.go`):
a failed refresh is logged and changes nothing; a successful refresh
replaces the series and resets the window start to 0; left/right scroll
by `WINDOW_SIZE / 4` within bounds; the timer advances by 1 while a full
window of newer data remains. -/
def chartStep (st : ChartState) : ChartEvent → ChartState
  | .quit => st
  | .refresh none => st
  | .refresh (some newData) => { allData := newData, windowStart := 0 }
  | .resize => st
  | .left =>
    if st.windowStart > 0 then
      { st with windowStart :=
          if st.windowStart - WINDOW_SIZE / 4 < 0 then 0
          else st.windowStart - WINDOW_SIZE / 4 }
    else st
  | .right =>
    if st.windowStart + WINDOW_SIZE < (st.allData.length : Int) then
      { st with windowStart := st.windowStart + WINDOW_SIZE / 4 }
    else st
  | .tick =>
    if st.windowStart + WINDOW_SIZE < (st.allData.length : Int) then
      { st with windowStart := st.windowStart + 1 }
    else st

/-- `strings.HasPrefix(s, p)` over `List Char`. -/
def goStartsWith : List Char → List Char → Bool
  | _, [] => true
  | [], _ :: _ => false
  | c :: cs, p :: ps => c = p && goStartsWith cs ps

/-- `strings.Contains(s, sub)` over `List Char`: scan for a position
where `sub` is a leading segment of the remaining text. -/
def goContains : List Char → List Char → Bool
  | [], sub => goStartsWith [] sub
  | c :: rest, sub => goStartsWith (c :: rest) sub || goContains rest sub

/-- What the `/data` endpoint sends for one request
(`webDataHandler`, `web_chart_viewer.go`). -/
inductive WebResponse where
  | payload (body : List Char)
  | marshalErrorFallback
  | nonFiniteFallback
deriving DecidableEq, Repr

/-- The final serialization guard of `webDataHandler`: `json.Marshal`
failure (modelled as `none`) is replaced by the explicit
could-not-serialize error payload; an encoding whose text contains
`"Infinity"` or `"NaN"` is replaced by the explicit non-finite error
payload; otherwise the encoded bytes are written as-is. -/
def webTransmit (marshalResult : Option (List Char)) : WebResponse :=
  match marshalResult with
  | none => .marshalErrorFallback
  | some jsonStr =>
    if goContains jsonStr (("Infinity").toList) || goContains jsonStr (("NaN").toList) then
      .nonFiniteFallback
    else .payload jsonStr

/-! Helper lemmas about the linear min/max scans. -/

theorem minStep_eq_min :
    (fun (m v : ℚ) => if v < m then v else m) = fun m v => min m v := by
  funext m v
  rcases le_or_lt m v with h | h
  · rw [if_neg (not_lt.mpr h), min_eq_left h]
  · rw [if_pos h, min_eq_right (le_of_lt h)]

theorem maxStep_eq_max :
    (fun (m v : ℚ) => if m < v then v else m) = fun m v => max m v := by
  funext m v
  rcases le_or_lt v m with h | h
  · rw [if_neg (not_lt.mpr h), max_eq_left h]
  · rw [if_pos h, max_eq_right (le_of_lt h)]

theorem findMin_cons (d : ℚ) (rest : List ℚ) :
    findMin (d :: rest) = rest.foldl min d := by
  show (d :: rest).foldl (fun m v => if v < m then v else m) d = _
  rw [minStep_eq_min, List.foldl_cons, min_self]

theorem findMax_cons (d : ℚ) (rest : List ℚ) :
    findMax (d :: rest) = rest.foldl max d := by
  show (d :: rest).foldl (fun m v => if m < v then v else m) d = _
  rw [maxStep_eq_max, List.foldl_cons, max_self]

theorem foldl_min_le_init (i : ℚ) (l : List ℚ) : l.foldl min i ≤ i := by
  induction l generalizing i with
  | nil => exact le_refl i
  | cons c cs ih => exact le_trans (ih (min i c)) (min_le_left i c)

theorem foldl_max_init_le (i : ℚ) (l : List ℚ) : i ≤ l.foldl max i := by
  induction l generalizing i with
  | nil => exact le_refl i
  | cons c cs ih => exact le_trans (le_max_left i c) (ih (max i c))

theorem foldl_min_le_mem {x : ℚ} {l : List ℚ} (i : ℚ) (hx : x ∈ l) :
    l.foldl min i ≤ x := by
  induction l generalizing i with
  | nil => cases hx
  | cons c cs ih =>
    rw [List.foldl_cons]
    rcases List.mem_cons.mp hx with h | h
    · subst h
      exact le_trans (foldl_min_le_init (min i x) cs) (min_le_right i x)
    · exact ih (min i c) h

theorem foldl_max_mem_le {x : ℚ} {l : List ℚ} (i : ℚ) (hx : x ∈ l) :
    x ≤ l.foldl max i := by
  induction l generalizing i with
  | nil => cases hx
  | cons c cs ih =>
    rw [List.foldl_cons]
    rcases List.mem_cons.mp hx with h | h
    · subst h
      exact le_trans (le_max_right i x) (foldl_max_init_le (max i x) cs)
    · exact ih (max i c) h

theorem foldl_min_mem (i : ℚ) (l : List ℚ) :
    l.foldl min i = i ∨ l.foldl min i ∈ l := by
  induction l generalizing i with
  | nil => exact Or.inl rfl
  | cons c cs ih =>
    rw [List.foldl_cons]
    rcases ih (min i c) with h | h
    · rcases min_choice i c with h2 | h2
      · exact Or.inl (by rw [h, h2])
      · exact Or.inr (by rw [h, h2]; exact List.mem_cons_self c cs)
    · exact Or.inr (List.mem_cons_of_mem c h)

theorem foldl_max_mem (i : ℚ) (l : List ℚ) :
    l.foldl max i = i ∨ l.foldl max i ∈ l := by
  induction l generalizing i with
  | nil => exact Or.inl rfl
  | cons c cs ih =>
    rw [List.foldl_cons]
    rcases ih (max i c) with h | h
    · rcases max_choice i c with h2 | h2
      · exact Or.inl (by rw [h, h2])
      · exact Or.inr (by rw [h, h2]; exact List.mem_cons_self c cs)
    · exact Or.inr (List.mem_cons_of_mem c h)

theorem foldl_min_map (f : ℚ → ℚ) (hf : ∀ a b, f (min a b) = min (f a) (f b))
    (i : ℚ) (l : List ℚ) :
    (l.map f).foldl min (f i) = f (l.foldl min i) := by
  induction l generalizing i with
  | nil => rfl
  | cons c cs ih =>
    rw [List.map_cons, List.foldl_cons, List.foldl_cons, ← hf, ih]

theorem foldl_max_map (f : ℚ → ℚ) (hf : ∀ a b, f (max a b) = max (f a) (f b))
    (i : ℚ) (l : List ℚ) :
    (l.map f).foldl max (f i) = f (l.foldl max i) := by
  induction l generalizing i with
  | nil => rfl
  | cons c cs ih =>
    rw [List.map_cons, List.foldl_cons, List.foldl_cons, ← hf, ih]

theorem findMin_le_of_mem {x : ℚ} {l : List ℚ} (hx : x ∈ l) : findMin l ≤ x := by
  match l with
  | [] => cases hx
  | d :: rest =>
    rw [findMin_cons]
    rcases List.mem_cons.mp hx with h | h
    · subst h; exact foldl_min_le_init _ _
    · exact foldl_min_le_mem _ h

theorem le_findMax_of_mem {x : ℚ} {l : List ℚ} (hx : x ∈ l) : x ≤ findMax l := by
  match l with
  | [] => cases hx
  | d :: rest =>
    rw [findMax_cons]
    rcases List.mem_cons.mp hx with h | h
    · subst h; exact foldl_max_init_le _ _
    · exact foldl_max_mem_le _ h

theorem findMin_mem {l : List ℚ} (hl : l ≠ []) : findMin l ∈ l := by
  match l with
  | [] => exact absurd rfl hl
  | d :: rest =>
    rw [findMin_cons]
    rcases foldl_min_mem d rest with h | h
    · rw [h]; exact List.mem_cons_self d rest
    · exact List.mem_cons_of_mem d h

theorem findMax_mem {l : List ℚ} (hl : l ≠ []) : findMax l ∈ l := by
  match l with
  | [] => exact absurd rfl hl
  | d :: rest =>
    rw [findMax_cons]
    rcases foldl_max_mem d rest with h | h
    · rw [h]; exact List.mem_cons_self d rest
    · exact List.mem_cons_of_mem d h

theorem findMin_le_findMax {l : List ℚ} (hl : l ≠ []) : findMin l ≤ findMax l := by
  match l with
  | [] => exact absurd rfl hl
  | d :: rest =>
    exact le_trans (findMin_le_of_mem (List.mem_cons_self d rest))
      (le_findMax_of_mem (List.mem_cons_self d rest))

theorem findMin_map_mono (f : ℚ → ℚ) (hf : ∀ a b, f (min a b) = min (f a) (f b))
    (d : ℚ) (rest : List ℚ) :
    findMin ((d :: rest).map f) = f (findMin (d :: rest)) := by
  rw [List.map_cons, findMin_cons, findMin_cons, foldl_min_map f hf]

theorem findMax_map_mono (f : ℚ → ℚ) (hf : ∀ a b, f (max a b) = max (f a) (f b))
    (d : ℚ) (rest : List ℚ) :
    findMax ((d :: rest).map f) = f (findMax (d :: rest)) := by
  rw [List.map_cons, findMax_cons, findMax_cons, foldl_max_map f hf]

theorem normalizeData_eq_map {s t : List ℚ} (hs : s ≠ []) (ht : t ≠ [])
    (hne : findMax s ≠ findMin s) :
    normalizeData s t = s.map (fun val =>
      findMin t + (val - findMin s) * (findMax t - findMin t)
        / (findMax s - findMin s)) := by
  have hs0 : ¬(s.length = 0 ∨ t.length = 0) := by
    rw [List.length_eq_zero, List.length_eq_zero]
    rintro (h | h)
    · exact hs h
    · exact ht h
  unfold normalizeData
  rw [if_neg hs0]
  show (if findMax s = findMin s then s else _) = _
  rw [if_neg hne]

/-- C1: for non-empty source and target with a non-constant source,
`normalizeData` returns a list of the same length whose i-th element is
`targetMin + (source[i] - sourceMin) * (targetMax - targetMin) /
(sourceMax - sourceMin)`, whose minimum is the target minimum and whose
maximum is the target maximum, and `[0,50,100]` normalised against
`[2,4,6]` is `[2,4,6]` (exact rational arithmetic stands in for
"within floating-point tolerance"). -/
theorem C1_normalize_correct (s t : List ℚ) (hs : s ≠ []) (ht : t ≠ [])
    (hne : findMax s ≠ findMin s) :
    (normalizeData s t).length = s.length
    ∧ (∀ i (h1 : i < s.length) (h2 : i < (normalizeData s t).length),
        (normalizeData s t).get ⟨i, h2⟩ =
          findMin t + (s.get ⟨i, h1⟩ - findMin s) * (findMax t - findMin t)
            / (findMax s - findMin s))
    ∧ findMin (normalizeData s t) = findMin t
    ∧ findMax (normalizeData s t) = findMax t
    ∧ normalizeData [0, 50, 100] [2, 4, 6] = [2, 4, 6] := by
  have hmap := normalizeData_eq_map hs ht hne
  set f : ℚ → ℚ := fun val =>
    findMin t + (val - findMin s) * (findMax t - findMin t) / (findMax s - findMin s)
    with hfdef
  have hDpos : (0 : ℚ) < findMax s - findMin s :=
    sub_pos.mpr (lt_of_le_of_ne (findMin_le_findMax hs) (fun h => hne h.symm))
  have hC : (0 : ℚ) ≤ findMax t - findMin t := sub_nonneg.mpr (findMin_le_findMax ht)
  have hmono : ∀ a b : ℚ, a ≤ b → f a ≤ f b := by
    intro a b hab
    show findMin t + (a - findMin s) * (findMax t - findMin t) / (findMax s - findMin s)
      ≤ findMin t + (b - findMin s) * (findMax t - findMin t) / (findMax s - findMin s)
    gcongr
  have hfmin : ∀ a b : ℚ, f (min a b) = min (f a) (f b) := by
    intro a b
    rcases le_total a b with h | h
    · rw [min_eq_left h, min_eq_left (hmono a b h)]
    · rw [min_eq_right h, min_eq_right (hmono b a h)]
  have hfmax : ∀ a b : ℚ, f (max a b) = max (f a) (f b) := by
    intro a b
    rcases le_total a b with h | h
    · rw [max_eq_right h, max_eq_right (hmono a b h)]
    · rw [max_eq_left h, max_eq_left (hmono b a h)]
  have hfmin_val : f (findMin s) = findMin t := by
    show findMin t + (findMin s - findMin s) * (findMax t - findMin t)
      / (findMax s - findMin s) = findMin t
    rw [sub_self, zero_mul, zero_div, add_zero]
  have hfmax_val : f (findMax s) = findMax t := by
    show findMin t + (findMax s - findMin s) * (findMax t - findMin t)
      / (findMax s - findMin s) = findMax t
    rw [mul_comm, mul_div_assoc, div_self (ne_of_gt hDpos), mul_one]
    ring
  refine ⟨?_, ?_, ?_, ?_, ?_⟩
  · rw [hmap, List.length_map]
  · intro i h1
    rw [hmap]
    intro h2
    rw [List.get_eq_getElem, List.getElem_map]
    rfl
  · rcases s with _ | ⟨d, rest⟩
    · exact absurd rfl hs
    · rw [hmap, findMin_map_mono f hfmin, hfmin_val]
  · rcases s with _ | ⟨d, rest⟩
    · exact absurd rfl hs
    · rw [hmap, findMax_map_mono f hfmax, hfmax_val]
  · with_unfolding_all rfl

/-- Witness for C1 at source `[0,50,100]`, target `[2,4,6]`. -/
theorem C1_normalize_correct_witness :
    (normalizeData [0, 50, 100] [2, 4, 6]).length = 3
    ∧ normalizeData [0, 50, 100] [2, 4, 6] = [2, 4, 6] := by
  have h := C1_normalize_correct [0, 50, 100] [2, 4, 6]
    (by decide) (by decide) (by decide)
  exact ⟨h.1, h.2.2.2.2⟩

/-- C7: `normalizeData` (and its web counterpart) is the identity when
the source is constant (max = min) or when either input is empty; in
particular `[10,10,10]` against `[1,2,3]` comes back unchanged. -/
theorem C7_normalize_identity :
    (∀ t : List ℚ, normalizeData [] t = [])
    ∧ (∀ s : List ℚ, normalizeData s [] = s)
    ∧ (∀ s t : List ℚ, findMax s = findMin s → normalizeData s t = s)
    ∧ (∀ t : List GoFloat, webNormalizeToRange [] t = [])
    ∧ (∀ s : List GoFloat, webNormalizeToRange s [] = s)
    ∧ (∀ s t : List GoFloat, (webFindMax s).goEq (webFindMin s) = true →
        webNormalizeToRange s t = s)
    ∧ normalizeData [10, 10, 10] [1, 2, 3] = [10, 10, 10] := by
  refine ⟨?_, ?_, ?_, ?_, ?_, ?_, by with_unfolding_all rfl⟩
  · intro t
    rfl
  · intro s
    unfold normalizeData
    rw [if_pos (Or.inr (show ([] : List ℚ).length = 0 from rfl))]
  · intro s t h
    unfold normalizeData
    rcases Decidable.em (s.length = 0 ∨ t.length = 0) with hc | hc
    · rw [if_pos hc]
    · rw [if_neg hc]
      show (if findMax s = findMin s then s else _) = s
      rw [if_pos h]
  · intro t
    rfl
  · intro s
    unfold webNormalizeToRange
    rw [if_pos (Or.inr (show ([] : List GoFloat).length = 0 from rfl))]
  · intro s t h
    unfold webNormalizeToRange
    rcases Decidable.em (s.length = 0 ∨ t.length = 0) with hc | hc
    · rw [if_pos hc]
    · rw [if_neg hc]
      show (if (webFindMax s).goEq (webFindMin s) = true then s else _) = s
      rw [if_pos h]

/-- Witness for C7 at the constant source `[5,5]`. -/
theorem C7_normalize_identity_witness :
    normalizeData [5, 5] [1, 2] = [5, 5] :=
  C7_normalize_identity.2.2.1 [5, 5] [1, 2] (by decide)

/-- C5: a failed refresh leaves the chart state (held series and window
cursor) unchanged; a successful refresh replaces the series with the
fetched one and resets the window start to 0. -/
theorem C5_refresh_atomic :
    (∀ st : ChartState, chartStep st (ChartEvent.refresh none) = st)
    ∧ (∀ (st : ChartState) (newData : List MarketData),
        (chartStep st (ChartEvent.refresh (some newData))).allData = newData
        ∧ (chartStep st (ChartEvent.refresh (some newData))).windowStart = 0) :=
  ⟨fun _ => rfl, fun _ _ => ⟨rfl, rfl⟩⟩

/-- C2 counterexample: with window size 200, series length 250 and a
start of 250 (≥ length), the termui variant's window computation sets
the start to 50 — it clamps to `length - windowSize` instead of
wrapping to 0 as the claim states. -/
theorem C2_window_counterexample :
    updateChartWindow 250 250 = (50, 250) ∧ (50 : Int) ≠ 0 := by
  constructor
  · decide
  · decide

/-- C2 (amended): in both variants the window end equals
`min(start + windowSize, length)` after the boundary adjustment; when
`start ≥ length` the ASCII variant wraps the start to 0 and recomputes
the end as `min(windowSize, length)`, while the termui variant clamps
the start to `max 0 (length - windowSize)` with the end at `length`;
below the boundary both keep the start unchanged. -/
theorem C2_window_policies (s L : Int) :
    (updateChartWindow s L).2 = min ((updateChartWindow s L).1 + WINDOW_SIZE) L
    ∧ (asciiChartWindow s L).2 = min ((asciiChartWindow s L).1 + WINDOW_SIZE) L
    ∧ (s ≥ L → (updateChartWindow s L).1 = max 0 (L - WINDOW_SIZE)
        ∧ (updateChartWindow s L).2 = L)
    ∧ (s ≥ L → (asciiChartWindow s L).1 = 0
        ∧ (asciiChartWindow s L).2 = min WINDOW_SIZE L)
    ∧ (s < L → (updateChartWindow s L).1 = s ∧ (asciiChartWindow s L).1 = s) := by
  unfold updateChartWindow asciiChartWindow WINDOW_SIZE
  dsimp only
  split_ifs <;> refine ⟨?_, ?_, ?_, ?_, ?_⟩ <;> dsimp only <;> omega

/-- Witness for C2 (amended) at start 250, length 250. -/
theorem C2_window_policies_witness :
    (updateChartWindow 250 250).1 = max 0 (250 - WINDOW_SIZE)
    ∧ (asciiChartWindow 250 250).1 = 0 :=
  ⟨((C2_window_policies 250 250).2.2.1 (by decide)).1,
   ((C2_window_policies 250 250).2.2.2.1 (by decide)).1⟩

/-! Helper lemmas about the `GoFloat` scans and arithmetic. -/

theorem webMaxStep_skip (st : GoFloat × Bool) (v : GoFloat)
    (hv : v.isFinite = false) : webMaxStep st v = st := by
  unfold webMaxStep
  rw [hv]
  rfl

theorem webMinStep_skip (st : GoFloat × Bool) (v : GoFloat)
    (hv : v.isFinite = false) : webMinStep st v = st := by
  unfold webMinStep
  rw [hv]
  rfl

theorem webAvgStep_skip (st : GoFloat × Nat) (v : GoFloat)
    (hv : v.isFinite = false) : webAvgStep st v = st := by
  unfold webAvgStep
  rw [hv]
  rfl

theorem foldl_webMaxStep_filter (data : List GoFloat) (st : GoFloat × Bool) :
    data.foldl webMaxStep st
      = (data.filter (fun v => v.isFinite)).foldl webMaxStep st := by
  induction data generalizing st with
  | nil => rfl
  | cons d rest ih =>
    by_cases hd : d.isFinite = true
    · rw [List.filter_cons_of_pos (by simpa using hd), List.foldl_cons,
        List.foldl_cons, ih]
    · rw [List.filter_cons_of_neg (by simpa using hd), List.foldl_cons,
        webMaxStep_skip st d (by simpa using hd), ih]

theorem foldl_webMinStep_filter (data : List GoFloat) (st : GoFloat × Bool) :
    data.foldl webMinStep st
      = (data.filter (fun v => v.isFinite)).foldl webMinStep st := by
  induction data generalizing st with
  | nil => rfl
  | cons d rest ih =>
    by_cases hd : d.isFinite = true
    · rw [List.filter_cons_of_pos (by simpa using hd), List.foldl_cons,
        List.foldl_cons, ih]
    · rw [List.filter_cons_of_neg (by simpa using hd), List.foldl_cons,
        webMinStep_skip st d (by simpa using hd), ih]

theorem foldl_webAvgStep_filter (data : List GoFloat) (st : GoFloat × Nat) :
    data.foldl webAvgStep st
      = (data.filter (fun v => v.isFinite)).foldl webAvgStep st := by
  induction data generalizing st with
  | nil => rfl
  | cons d rest ih =>
    by_cases hd : d.isFinite = true
    · rw [List.filter_cons_of_pos (by simpa using hd), List.foldl_cons,
        List.foldl_cons, ih]
    · rw [List.filter_cons_of_neg (by simpa using hd), List.foldl_cons,
        webAvgStep_skip st d (by simpa using hd), ih]

theorem webFindMax_filter (data : List GoFloat) :
    webFindMax data = webFindMax (data.filter (fun v => v.isFinite)) := by
  unfold webFindMax
  rcases data with _ | ⟨d, rest⟩
  · rfl
  · rw [foldl_webMaxStep_filter (d :: rest)]
    rcases hf : (d :: rest).filter (fun v => v.isFinite) with _ | ⟨e, es⟩
    · rw [hf]
      rfl
    · rw [hf]
      rfl

theorem webFindMin_filter (data : List GoFloat) :
    webFindMin data = webFindMin (data.filter (fun v => v.isFinite)) := by
  unfold webFindMin
  rcases data with _ | ⟨d, rest⟩
  · rfl
  · rw [foldl_webMinStep_filter (d :: rest)]
    rcases hf : (d :: rest).filter (fun v => v.isFinite) with _ | ⟨e, es⟩
    · rw [hf]
      rfl
    · rw [hf]
      rfl

theorem webCalculateAverage_filter (data : List GoFloat) :
    webCalculateAverage data
      = webCalculateAverage (data.filter (fun v => v.isFinite)) := by
  unfold webCalculateAverage
  rcases data with _ | ⟨d, rest⟩
  · rfl
  · rw [foldl_webAvgStep_filter (d :: rest)]
    rcases hf : (d :: rest).filter (fun v => v.isFinite) with _ | ⟨e, es⟩
    · rw [hf]
      rfl
    · rw [hf]
      rfl

theorem webMaxFold_finite (data : List GoFloat) (st : GoFloat × Bool)
    (hst : st.2 = true → st.1.isFinite = true) :
    (data.foldl webMaxStep st).2 = true → (data.foldl webMaxStep st).1.isFinite = true := by
  induction data generalizing st with
  | nil => exact hst
  | cons d rest ih =>
    rw [List.foldl_cons]
    apply ih
    unfold webMaxStep
    by_cases hd : d.isFinite = true
    · rw [if_pos hd]
      by_cases hc : (!st.2 || st.1.goLt d) = true
      · rw [if_pos hc]
        exact fun _ => hd
      · rw [if_neg hc]
        exact hst
    · rw [if_neg hd]
      exact hst

theorem webMinFold_finite (data : List GoFloat) (st : GoFloat × Bool)
    (hst : st.2 = true → st.1.isFinite = true) :
    (data.foldl webMinStep st).2 = true → (data.foldl webMinStep st).1.isFinite = true := by
  induction data generalizing st with
  | nil => exact hst
  | cons d rest ih =>
    rw [List.foldl_cons]
    apply ih
    unfold webMinStep
    by_cases hd : d.isFinite = true
    · rw [if_pos hd]
      by_cases hc : (!st.2 || d.goLt st.1) = true
      · rw [if_pos hc]
        exact fun _ => hd
      · rw [if_neg hc]
        exact hst
    · rw [if_neg hd]
      exact hst

theorem webFindMax_isFinite (data : List GoFloat) :
    (webFindMax data).isFinite = true := by
  unfold webFindMax
  rcases data with _ | ⟨d, rest⟩
  · rfl
  · dsimp only
    rw [if_neg (by simp)]
    by_cases h2 : ((d :: rest).foldl webMaxStep (.finite 0, false)).2 = true
    · rw [h2, if_neg (by simp)]
      exact webMaxFold_finite (d :: rest) (.finite 0, false) (fun h => nomatch h) h2
    · have h2f : ((d :: rest).foldl webMaxStep (.finite 0, false)).2 = false := by
        simpa using h2
      rw [h2f]
      rfl

theorem webFindMin_isFinite (data : List GoFloat) :
    (webFindMin data).isFinite = true := by
  unfold webFindMin
  rcases data with _ | ⟨d, rest⟩
  · rfl
  · dsimp only
    rw [if_neg (by simp)]
    by_cases h2 : ((d :: rest).foldl webMinStep (.finite 0, false)).2 = true
    · rw [h2, if_neg (by simp)]
      exact webMinFold_finite (d :: rest) (.finite 0, false) (fun h => nomatch h) h2
    · have h2f : ((d :: rest).foldl webMinStep (.finite 0, false)).2 = false := by
        simpa using h2
      rw [h2f]
      rfl

theorem sub_nonfinite_finite (v : GoFloat) (hv : v.isFinite = false) (q : ℚ) :
    (v.sub (.finite q)).isFinite = false := by
  rcases v with p | _ | _ | _
  · cases hv
  · rfl
  · rfl
  · rfl

theorem mul_nonfinite_finite (x : GoFloat) (hx : x.isFinite = false) (c : ℚ) :
    (x.mul (.finite c)).isFinite = false := by
  rcases x with p | _ | _ | _
  · cases hx
  · show (if 0 < c then GoFloat.posInf else
      if c < 0 then GoFloat.negInf else GoFloat.nan).isFinite = false
    split_ifs <;> rfl
  · show (if 0 < c then GoFloat.negInf else
      if c < 0 then GoFloat.posInf else GoFloat.nan).isFinite = false
    split_ifs <;> rfl
  · rfl

theorem div_nonfinite_finite (x : GoFloat) (hx : x.isFinite = false) (d : ℚ) :
    (x.div (.finite d)).isFinite = false := by
  rcases x with p | _ | _ | _
  · cases hx
  · show (if d < 0 then GoFloat.negInf else GoFloat.posInf).isFinite = false
    split_ifs <;> rfl
  · show (if d < 0 then GoFloat.posInf else GoFloat.negInf).isFinite = false
    split_ifs <;> rfl
  · rfl

theorem add_finite_nonfinite (a : ℚ) (x : GoFloat) (hx : x.isFinite = false) :
    ((GoFloat.finite a).add x).isFinite = false := by
  rcases x with p | _ | _ | _
  · cases hx
  · rfl
  · rfl
  · rfl

theorem normalize_elt_nonfinite (v sMin sMax tMin tMax : GoFloat)
    (hsMin : sMin.isFinite = true) (hsMax : sMax.isFinite = true)
    (htMin : tMin.isFinite = true) (htMax : tMax.isFinite = true)
    (hv : v.isFinite = false) :
    (tMin.add (((v.sub sMin).mul (tMax.sub tMin)).div (sMax.sub sMin))).isFinite
      = false := by
  rcases sMin with qmin | _ | _ | _ <;> simp [GoFloat.isFinite] at hsMin
  rcases sMax with qmax | _ | _ | _ <;> simp [GoFloat.isFinite] at hsMax
  rcases tMin with a | _ | _ | _ <;> simp [GoFloat.isFinite] at htMin
  rcases tMax with b | _ | _ | _ <;> simp [GoFloat.isFinite] at htMax
  have h2 : (GoFloat.finite b).sub (.finite a) = .finite (b + -a) := rfl
  have h3 : (GoFloat.finite qmax).sub (.finite qmin) = .finite (qmax + -qmin) := rfl
  rw [h2, h3]
  exact add_finite_nonfinite a _
    (div_nonfinite_finite _
      (mul_nonfinite_finite _ (sub_nonfinite_finite v hv qmin) _) _)

theorem webNormalizeToRange_eq_map {source target : List GoFloat}
    (h1 : ¬(source.length = 0 ∨ target.length = 0))
    (h2 : ¬((webFindMax source).goEq (webFindMin source) = true)) :
    webNormalizeToRange source target = source.map (fun val =>
      (webFindMin target).add (((val.sub (webFindMin source)).mul
        ((webFindMax target).sub (webFindMin target))).div
        ((webFindMax source).sub (webFindMin source)))) := by
  unfold webNormalizeToRange
  rw [if_neg h1]
  show (if (webFindMax source).goEq (webFindMin source) = true then source else _) = _
  rw [if_neg h2]

/-- C4 counterexample: the web normalizer excludes the `+∞` of
`[1, 2, +∞]` from the min/max computation but does not substitute zero
for it — the linear map propagates it and the output
`[0, 10, +∞]` contains a non-finite value. -/
theorem C4_nonfinite_counterexample :
    webNormalizeToRange [GoFloat.finite 1, GoFloat.finite 2, GoFloat.posInf]
        [GoFloat.finite 0, GoFloat.finite 10]
      = [GoFloat.finite 0, GoFloat.finite 10, GoFloat.posInf]
    ∧ GoFloat.posInf.isFinite = false := by
  constructor
  · with_unfolding_all rfl
  · rfl

/-- C4 (amended): the web variant's min/max scans do exclude non-finite
values (they agree with the same scan over the finite values only), but
the normalizer does not substitute zero for a non-finite input: in the
non-degenerate branch every non-finite source element yields a
non-finite output element at the same index (zero substitution happens
only in the data handler's stats and per-record cleaning, not here). -/
theorem C4_nonfinite_handling :
    (∀ data : List GoFloat,
      webFindMax data = webFindMax (data.filter (fun v => v.isFinite)))
    ∧ (∀ data : List GoFloat,
      webFindMin data = webFindMin (data.filter (fun v => v.isFinite)))
    ∧ (∀ source target : List GoFloat,
        ¬(source.length = 0 ∨ target.length = 0) →
        (webFindMax source).goEq (webFindMin source) = false →
        ∀ i (h1 : i < source.length)
          (h2 : i < (webNormalizeToRange source target).length),
          (source.get ⟨i, h1⟩).isFinite = false →
          ((webNormalizeToRange source target).get ⟨i, h2⟩).isFinite = false) := by
  refine ⟨webFindMax_filter, webFindMin_filter, ?_⟩
  intro source target hlen hdeg i hi1
  have hdeg2 : ¬((webFindMax source).goEq (webFindMin source) = true) := by
    simp [hdeg]
  have hmap := webNormalizeToRange_eq_map hlen hdeg2
  rw [hmap]
  intro hi2 hnf
  rw [List.get_eq_getElem, List.getElem_map]
  exact normalize_elt_nonfinite _ _ _ _ _
    (webFindMin_isFinite source) (webFindMax_isFinite source)
    (webFindMin_isFinite target) (webFindMax_isFinite target) hnf

/-- Witness for C4 (amended): the third element of the normalized
`[1, 2, +∞]` is non-finite. -/
theorem C4_nonfinite_handling_witness :
    ((webNormalizeToRange [GoFloat.finite 1, GoFloat.finite 2, GoFloat.posInf]
        [GoFloat.finite 0, GoFloat.finite 10]).get
      ⟨2, by with_unfolding_all decide⟩).isFinite = false :=
  C4_nonfinite_handling.2.2 _ _ (by decide) (by with_unfolding_all rfl)
    2 (by decide) (by with_unfolding_all decide) (by rfl)

/-- C6 counterexample: the terminal variant's `findMax` does not ignore
non-finite values — on `[1, +∞]` it returns `+∞` (a non-finite value),
whereas the web variant's filtered scan returns `1`. -/
theorem C6_stats_counterexample :
    findMaxGF [GoFloat.finite 1, GoFloat.posInf] = GoFloat.posInf
    ∧ GoFloat.posInf.isFinite = false
    ∧ webFindMax [GoFloat.finite 1, GoFloat.posInf] = GoFloat.finite 1 := by
  refine ⟨?_, rfl, ?_⟩
  · with_unfolding_all rfl
  · with_unfolding_all rfl

/-- C6 (amended): the statistics helpers are pure list functions; the
mean is 0 on empty input; the terminal variants compute max/min with the
first element as identity and a linear scan and do not filter non-finite
values, while the web variants skip non-finite values exactly like the
web normalizer's min/max helpers; on `[1.0, 2.0, 3.0]` every variant
returns average 2, maximum 3 and minimum 1. -/
theorem C6_stats_behaviour :
    calculateAverage [] = 0
    ∧ webCalculateAverage [] = GoFloat.finite 0
    ∧ (∀ (l : List ℚ) (x : ℚ), x ∈ l → x ≤ findMax l)
    ∧ (∀ (l : List ℚ) (x : ℚ), x ∈ l → findMin l ≤ x)
    ∧ (∀ l : List ℚ, l ≠ [] → findMax l ∈ l ∧ findMin l ∈ l)
    ∧ (∀ data : List GoFloat,
        webFindMax data = webFindMax (data.filter (fun v => v.isFinite)))
    ∧ (∀ data : List GoFloat,
        webFindMin data = webFindMin (data.filter (fun v => v.isFinite)))
    ∧ (∀ data : List GoFloat,
        webCalculateAverage data
          = webCalculateAverage (data.filter (fun v => v.isFinite)))
    ∧ findMaxGF [GoFloat.finite 1, GoFloat.posInf] = GoFloat.posInf
    ∧ calculateAverage [1, 2, 3] = 2
    ∧ findMax [1, 2, 3] = 3
    ∧ findMin [1, 2, 3] = 1
    ∧ webCalculateAverage [GoFloat.finite 1, GoFloat.finite 2, GoFloat.finite 3]
        = GoFloat.finite 2
    ∧ webFindMax [GoFloat.finite 1, GoFloat.finite 2, GoFloat.finite 3]
        = GoFloat.finite 3
    ∧ webFindMin [GoFloat.finite 1, GoFloat.finite 2, GoFloat.finite 3]
        = GoFloat.finite 1 := by
  refine ⟨rfl, rfl, ?_, ?_, ?_, webFindMax_filter, webFindMin_filter,
    webCalculateAverage_filter, by with_unfolding_all rfl,
    by with_unfolding_all rfl, by with_unfolding_all rfl,
    by with_unfolding_all rfl, by with_unfolding_all rfl,
    by with_unfolding_all rfl, by with_unfolding_all rfl⟩
  · intro l x hx
    exact le_findMax_of_mem hx
  · intro l x hx
    exact findMin_le_of_mem hx
  · intro l hl
    exact ⟨findMax_mem hl, findMin_mem hl⟩

/-- Witness for C6 (amended): instances of the membership-bound
conjuncts on `[1, 2, 3]`. -/
theorem C6_stats_behaviour_witness :
    (2 : ℚ) ≤ findMax [1, 2, 3] ∧ findMax [1, 2, 3] ∈ [1, 2, 3] :=
  ⟨C6_stats_behaviour.2.2.1 [1, 2, 3] 2 (by decide),
   (C6_stats_behaviour.2.2.2.2.1 [1, 2, 3] (by decide)).1⟩




/-! Helper lemmas about splitting, joining and the row decoder. -/

theorem splitOnChar_no_sep (c : Char) (l : List Char) (h : c ∉ l) :
    splitOnChar c l = [l] := by
  induction l with
  | nil => rfl
  | cons x xs ih =>
    have hx : ¬(x = c) := fun he => h (he ▸ List.mem_cons_self x xs)
    have hxs : c ∉ xs := fun hm => h (List.mem_cons_of_mem x hm)
    simp only [splitOnChar]
    rw [if_neg hx, ih hxs]
    rfl

theorem splitOnChar_append (c : Char) (f rest : List Char) (hf : c ∉ f) :
    splitOnChar c (f ++ c :: rest) = f :: splitOnChar c rest := by
  induction f with
  | nil =>
    show splitOnChar c (c :: rest) = [] :: splitOnChar c rest
    simp only [splitOnChar]
    simp
  | cons x f2 ih =>
    have hx : ¬(x = c) := fun he => hf (he ▸ List.mem_cons_self x f2)
    have hf2 : c ∉ f2 := fun hm => hf (List.mem_cons_of_mem x hm)
    show splitOnChar c (x :: (f2 ++ c :: rest)) = (x :: f2) :: splitOnChar c rest
    simp only [splitOnChar]
    rw [if_neg hx, ih hf2]
    rfl

theorem joinSep_two_ne_nil (c : Char) (f g : List Char) (rest : List (List Char)) :
    joinSep c (f :: g :: rest) ≠ [] := by
  show f ++ c :: joinSep c (g :: rest) ≠ []
  simp

theorem splitOnChar_joinSep (c : Char) (fields : List (List Char))
    (hne : fields ≠ []) (hc : ∀ f ∈ fields, c ∉ f) :
    splitOnChar c (joinSep c fields) = fields := by
  induction fields with
  | nil => exact absurd rfl hne
  | cons f rest ih =>
    rcases rest with _ | ⟨g, rest2⟩
    · exact splitOnChar_no_sep c f (hc f (List.mem_cons_self f []))
    · show splitOnChar c (f ++ c :: joinSep c (g :: rest2)) = f :: g :: rest2
      rw [splitOnChar_append c f _ (hc f (List.mem_cons_self f (g :: rest2)))]
      rw [ih (by simp) (fun x hx => hc x (List.mem_cons_of_mem f hx))]

theorem parseLine_short (fields : List (List Char))
    (hc : ∀ f ∈ fields, '\t' ∉ f) (hlen : fields.length < 12) :
    parseLine (joinSep '\t' fields) = none := by
  by_cases hline : joinSep '\t' fields = []
  · rw [hline]
    rfl
  · have hfe : fields ≠ [] := by
      rintro rfl
      exact hline rfl
    unfold parseLine
    rw [if_neg hline, splitOnChar_joinSep '\t' fields hfe hc, if_pos hlen]

theorem parseLine_accept (f0 f1 f2 f3 f4 f5 f6 f7 f8 f9 f10 f11 : List Char)
    (extra : List (List Char))
    (hc : ∀ f ∈ f0 :: f1 :: f2 :: f3 :: f4 :: f5 :: f6 :: f7 :: f8 :: f9 :: f10
        :: f11 :: extra, '\t' ∉ f)
    (t : GoTime) (ht : goParseTime f1 = some t)
    (p : ℚ) (hp : goParseFloat f2 = (p, true))
    (v : Nat) (hv : goParseUint f3 32 = (v, true))
    (oi : Nat) (hoi : goParseUint f4 32 = (oi, true)) :
    parseLine (joinSep '\t' (f0 :: f1 :: f2 :: f3 :: f4 :: f5 :: f6 :: f7 :: f8
        :: f9 :: f10 :: f11 :: extra))
      = some { symbol := f0, time := t, price := p, vol := v, openInterest := oi,
               diffVol := (goParseInt f5 32).1, diffOI := (goParseInt f6 32).1,
               bid1 := (goParseFloat f7).1, bidVolumn1 := (goParseUint f8 32).1,
               ask1 := (goParseFloat f9).1, askVolumn1 := (goParseUint f10 32).1,
               dateTime := (goParseUint f11 64).1 } := by
  unfold parseLine
  rw [if_neg (joinSep_two_ne_nil '\t' f0 f1 _),
    splitOnChar_joinSep '\t' _ (by simp) hc,
    if_neg (by simp)]
  have e1 : goParseTime ((f0 :: f1 :: f2 :: f3 :: f4 :: f5 :: f6 :: f7 :: f8
      :: f9 :: f10 :: f11 :: extra).getD 1 []) = some t := ht
  rw [e1]
  have e2 : goParseFloat ((f0 :: f1 :: f2 :: f3 :: f4 :: f5 :: f6 :: f7 :: f8
      :: f9 :: f10 :: f11 :: extra).getD 2 []) = (p, true) := hp
  rw [e2]
  have e3 : goParseUint ((f0 :: f1 :: f2 :: f3 :: f4 :: f5 :: f6 :: f7 :: f8
      :: f9 :: f10 :: f11 :: extra).getD 3 []) 32 = (v, true) := hv
  rw [e3]
  have e4 : goParseUint ((f0 :: f1 :: f2 :: f3 :: f4 :: f5 :: f6 :: f7 :: f8
      :: f9 :: f10 :: f11 :: extra).getD 4 []) 32 = (oi, true) := hoi
  rw [e4]
  rfl

theorem parseLine_required_fail (f0 f1 f2 f3 f4 f5 f6 f7 f8 f9 f10 f11 : List Char)
    (hc : ∀ f ∈ [f0, f1, f2, f3, f4, f5, f6, f7, f8, f9, f10, f11], '\t' ∉ f)
    (hfail : goParseTime f1 = none ∨ (goParseFloat f2).2 = false
      ∨ (goParseUint f3 32).2 = false ∨ (goParseUint f4 32).2 = false) :
    parseLine (joinSep '\t' [f0, f1, f2, f3, f4, f5, f6, f7, f8, f9, f10, f11])
      = none := by
  unfold parseLine
  rw [if_neg (joinSep_two_ne_nil '\t' f0 f1 _),
    splitOnChar_joinSep '\t' _ (by simp) hc,
    if_neg (by simp)]
  have e1 : goParseTime (([f0, f1, f2, f3, f4, f5, f6, f7, f8, f9, f10, f11]
      : List (List Char)).getD 1 []) = goParseTime f1 := rfl
  have e2 : goParseFloat (([f0, f1, f2, f3, f4, f5, f6, f7, f8, f9, f10, f11]
      : List (List Char)).getD 2 []) = goParseFloat f2 := rfl
  have e3 : goParseUint (([f0, f1, f2, f3, f4, f5, f6, f7, f8, f9, f10, f11]
      : List (List Char)).getD 3 []) 32 = goParseUint f3 32 := rfl
  have e4 : goParseUint (([f0, f1, f2, f3, f4, f5, f6, f7, f8, f9, f10, f11]
      : List (List Char)).getD 4 []) 32 = goParseUint f4 32 := rfl
  rw [e1, e2, e3, e4]
  rcases hfail with h | h | h | h
  · rw [h]
  · rcases h1 : goParseTime f1 with _ | t
    · rfl
    · rcases hq : goParseFloat f2 with ⟨p, pb⟩
      rw [hq] at h
      cases pb
      · rfl
      · simp at h
  · rcases h1 : goParseTime f1 with _ | t
    · rfl
    · rcases hq : goParseFloat f2 with ⟨p, pb⟩
      cases pb
      · rfl
      · rcases hw : goParseUint f3 32 with ⟨v, vb⟩
        rw [hw] at h
        cases vb
        · rfl
        · simp at h
  · rcases h1 : goParseTime f1 with _ | t
    · rfl
    · rcases hq : goParseFloat f2 with ⟨p, pb⟩
      cases pb
      · rfl
      · rcases hw : goParseUint f3 32 with ⟨v, vb⟩
        cases vb
        · rfl
        · rcases hz : goParseUint f4 32 with ⟨oi, ob⟩
          rw [hz] at h
          cases ob
          · rfl
          · simp at h

theorem parseTabSeparatedData_lines (lines : List (List Char))
    (hnl : ∀ l ∈ lines, '\n' ∉ l)
    (htrim : goTrimSpace (joinSep '\n' lines) = joinSep '\n' lines) :
    parseTabSeparatedData (joinSep '\n' lines) = lines.filterMap parseLine := by
  unfold parseTabSeparatedData
  rw [htrim]
  rcases lines with _ | ⟨l, rest⟩
  · rfl
  · rw [splitOnChar_joinSep '\n' (l :: rest) (by simp) hnl]

/-- C3 counterexample: `diff_vol = "99999999999"` overflows `int32`, so
its best-effort parse fails (`ok = false`), yet the decoded record holds
the clamped maximum 2147483647 — not the zero the claim requires. -/
theorem C3_decoder_counterexample :
    (goParseInt (("99999999999").toList) 32).2 = false
    ∧ (parseLine
        (("jm2509\t2025-01-02 09:00:00\t5.5\t2\t3\t99999999999\t-1\t5\t1\t6\t1\t7").toList)).map
        MarketData.diffVol = some 2147483647
    ∧ (2147483647 : Int) ≠ 0 := by
  refine ⟨by decide, ?_, by decide⟩
  with_unfolding_all rfl

/-- C3 (amended): a row with 12 well-formed tab-separated fields decodes
to exactly one record with all fields equal to the parsed inputs; a row
with fewer than 12 fields yields no record; a row whose timestamp,
price, volume or open-interest field fails to parse yields no record;
the payload is decoded line by line, so a failing row does not abort the
following rows (shown generally and on a concrete two-row payload); and
a row whose optional fields fail to parse is still decoded, with those
fields holding the best-effort conversion result — 0 on malformed text,
the clamped extreme value of the target type on range overflow. -/
theorem C3_decoder_behaviour :
    (∀ f0 f1 f2 f3 f4 f5 f6 f7 f8 f9 f10 f11 : List Char,
      ∀ (t : GoTime) (p : ℚ) (v : Nat) (oi : Nat) (dv : Int) (doi : Int)
        (b1 : ℚ) (bv : Nat) (a1 : ℚ) (av : Nat) (dt : Nat),
      (∀ f ∈ [f0, f1, f2, f3, f4, f5, f6, f7, f8, f9, f10, f11], '\t' ∉ f) →
      goParseTime f1 = some t → goParseFloat f2 = (p, true) →
      goParseUint f3 32 = (v, true) → goParseUint f4 32 = (oi, true) →
      goParseInt f5 32 = (dv, true) → goParseInt f6 32 = (doi, true) →
      goParseFloat f7 = (b1, true) → goParseUint f8 32 = (bv, true) →
      goParseFloat f9 = (a1, true) → goParseUint f10 32 = (av, true) →
      goParseUint f11 64 = (dt, true) →
      parseLine (joinSep '\t' [f0, f1, f2, f3, f4, f5, f6, f7, f8, f9, f10, f11])
        = some ⟨f0, t, p, v, oi, dv, doi, b1, bv, a1, av, dt⟩)
    ∧ (∀ fields : List (List Char), (∀ f ∈ fields, '\t' ∉ f) →
        fields.length < 12 → parseLine (joinSep '\t' fields) = none)
    ∧ (∀ f0 f1 f2 f3 f4 f5 f6 f7 f8 f9 f10 f11 : List Char,
        (∀ f ∈ [f0, f1, f2, f3, f4, f5, f6, f7, f8, f9, f10, f11], '\t' ∉ f) →
        (goParseTime f1 = none ∨ (goParseFloat f2).2 = false
          ∨ (goParseUint f3 32).2 = false ∨ (goParseUint f4 32).2 = false) →
        parseLine (joinSep '\t' [f0, f1, f2, f3, f4, f5, f6, f7, f8, f9, f10, f11])
          = none)
    ∧ (∀ lines : List (List Char), (∀ l ∈ lines, '\n' ∉ l) →
        goTrimSpace (joinSep '\n' lines) = joinSep '\n' lines →
        parseTabSeparatedData (joinSep '\n' lines) = lines.filterMap parseLine)
    ∧ parseTabSeparatedData
        (("jm2509\t2025-01-02 09:00:00\tabc\t2\t3\t1\t-1\t5\t1\t6\t1\t7\njm2509\t2025-01-02 09:00:01\t5.5\t2\t3\t1\t-1\t5\t1\t6\t1\t7").toList)
        = [{ symbol := ("jm2509").toList
             time := { year := 2025, month := 1, day := 2, hour := 9,
                       minute := 0, second := 1 }
             price := 11 / 2, vol := 2, openInterest := 3, diffVol := 1
             diffOI := -1, bid1 := 5, bidVolumn1 := 1, ask1 := 6
             askVolumn1 := 1, dateTime := 7 }]
    ∧ (∀ f0 f1 f2 f3 f4 f5 f6 f7 f8 f9 f10 f11 : List Char,
        ∀ (t : GoTime) (p : ℚ) (v : Nat) (oi : Nat),
        (∀ f ∈ [f0, f1, f2, f3, f4, f5, f6, f7, f8, f9, f10, f11], '\t' ∉ f) →
        goParseTime f1 = some t → goParseFloat f2 = (p, true) →
        goParseUint f3 32 = (v, true) → goParseUint f4 32 = (oi, true) →
        parseLine (joinSep '\t' [f0, f1, f2, f3, f4, f5, f6, f7, f8, f9, f10, f11])
          = some { symbol := f0, time := t, price := p, vol := v,
                   openInterest := oi
                   diffVol := (goParseInt f5 32).1
                   diffOI := (goParseInt f6 32).1
                   bid1 := (goParseFloat f7).1
                   bidVolumn1 := (goParseUint f8 32).1
                   ask1 := (goParseFloat f9).1
                   askVolumn1 := (goParseUint f10 32).1
                   dateTime := (goParseUint f11 64).1 })
    ∧ (parseLine
        (("jm2509\t2025-01-02 09:00:00\t5.5\t2\t3\tabc\t-1\t5\t1\t6\t1\t7").toList)).map
        MarketData.diffVol = some 0
    ∧ (parseLine
        (("jm2509\t2025-01-02 09:00:00\t5.5\t2\t3\t99999999999\t-1\t5\t1\t6\t1\t7").toList)).map
        MarketData.diffVol = some 2147483647 := by
  refine ⟨?_, parseLine_short, parseLine_required_fail, parseTabSeparatedData_lines,
    by with_unfolding_all rfl, ?_, by with_unfolding_all rfl,
    by with_unfolding_all rfl⟩
  · intro f0 f1 f2 f3 f4 f5 f6 f7 f8 f9 f10 f11 t p v oi dv doi b1 bv a1 av dt
    intro hc ht hp hv hoi hdv hdoi hb1 hbv ha1 hav hdt
    rw [parseLine_accept f0 f1 f2 f3 f4 f5 f6 f7 f8 f9 f10 f11 [] hc t ht p hp v hv oi hoi]
    rw [hdv, hdoi, hb1, hbv, ha1, hav, hdt]
  · intro f0 f1 f2 f3 f4 f5 f6 f7 f8 f9 f10 f11 t p v oi hc ht hp hv hoi
    exact parseLine_accept f0 f1 f2 f3 f4 f5 f6 f7 f8 f9 f10 f11 [] hc t ht p hp v hv oi hoi

/-- Witness for C3 (amended): an 11-field row decodes to nothing. -/
theorem C3_decoder_behaviour_witness :
    parseLine (joinSep '\t' (List.replicate 11 ([] : List Char))) = none :=
  C3_decoder_behaviour.2.1 (List.replicate 11 []) (by decide) (by decide)

/-- C10: a row with more than 12 tab-separated fields whose first 12
fields are well-formed is accepted: the decoder produces exactly the
record built from the first 12 fields and silently ignores the extra
fields (the field-count guard only rejects rows with fewer than 12). -/
theorem C10_extra_fields_accepted
    (f0 f1 f2 f3 f4 f5 f6 f7 f8 f9 f10 f11 : List Char)
    (extra : List (List Char))
    (hc : ∀ f ∈ f0 :: f1 :: f2 :: f3 :: f4 :: f5 :: f6 :: f7 :: f8 :: f9 :: f10
        :: f11 :: extra, '\t' ∉ f)
    (t : GoTime) (p : ℚ) (v : Nat) (oi : Nat) (dv : Int) (doi : Int)
    (b1 : ℚ) (bv : Nat) (a1 : ℚ) (av : Nat) (dt : Nat)
    (ht : goParseTime f1 = some t) (hp : goParseFloat f2 = (p, true))
    (hv : goParseUint f3 32 = (v, true)) (hoi : goParseUint f4 32 = (oi, true))
    (hdv : goParseInt f5 32 = (dv, true)) (hdoi : goParseInt f6 32 = (doi, true))
    (hb1 : goParseFloat f7 = (b1, true)) (hbv : goParseUint f8 32 = (bv, true))
    (ha1 : goParseFloat f9 = (a1, true)) (hav : goParseUint f10 32 = (av, true))
    (hdt : goParseUint f11 64 = (dt, true)) :
    parseLine (joinSep '\t' (f0 :: f1 :: f2 :: f3 :: f4 :: f5 :: f6 :: f7 :: f8
        :: f9 :: f10 :: f11 :: extra))
      = some ⟨f0, t, p, v, oi, dv, doi, b1, bv, a1, av, dt⟩ := by
  rw [parseLine_accept f0 f1 f2 f3 f4 f5 f6 f7 f8 f9 f10 f11 extra hc t ht p hp v hv oi hoi]
  rw [hdv, hdoi, hb1, hbv, ha1, hav, hdt]

/-- Witness for C10: a concrete 13-field row decodes to the record built
from its first 12 fields. -/
theorem C10_extra_fields_accepted_witness :
    parseLine (joinSep '\t' [("jm2509").toList, ("2025-01-02 09:00:01").toList,
        ("5.5").toList, ("2").toList, ("3").toList, ("1").toList, ("-1").toList,
        ("5").toList, ("1").toList, ("6").toList, ("1").toList, ("7").toList,
        ("extra").toList])
      = some ⟨("jm2509").toList,
          { year := 2025, month := 1, day := 2, hour := 9, minute := 0,
            second := 1 },
          11 / 2, 2, 3, 1, -1, 5, 1, 6, 1, 7⟩ :=
  C10_extra_fields_accepted _ _ _ _ _ _ _ _ _ _ _ _ [("extra").toList]
    (by decide) _ _ _ _ _ _ _ _ _ _ _
    (by decide) (by with_unfolding_all rfl) (by decide) (by decide)
    (by decide) (by decide) (by with_unfolding_all rfl) (by decide)
    (by with_unfolding_all rfl) (by decide) (by decide)

/-! Helper lemmas for the serialization guard. -/

theorem goStartsWith_append (sub post : List Char) :
    goStartsWith (sub ++ post) sub = true := by
  induction sub with
  | nil =>
    cases post
    · rfl
    · rfl
  | cons s ss ih =>
    show goStartsWith (s :: (ss ++ post)) (s :: ss) = true
    simp only [goStartsWith]
    rw [ih]
    simp

theorem goContains_of_goStartsWith (s sub : List Char)
    (h : goStartsWith s sub = true) : goContains s sub = true := by
  cases s
  · exact h
  · simp only [goContains]
    rw [h]
    simp

theorem goContains_append (pre sub post : List Char) :
    goContains (pre ++ (sub ++ post)) sub = true := by
  induction pre with
  | nil =>
    simp only [List.nil_append]
    exact goContains_of_goStartsWith _ _ (goStartsWith_append sub post)
  | cons x pre2 ih =>
    show goContains (x :: (pre2 ++ (sub ++ post))) sub = true
    simp only [goContains]
    rw [ih]
    simp

/-- C8: the `/data` endpoint's final guard — a failed `json.Marshal` is
replaced by the explicit could-not-serialize error payload; encoded
bytes containing the text `"Infinity"` or `"NaN"` are replaced by the
explicit non-finite-values error payload; and only an encoding
containing neither is transmitted as-is. -/
theorem C8_serialization_guard :
    webTransmit none = WebResponse.marshalErrorFallback
    ∧ (∀ s pre post : List Char, s = pre ++ ((("Infinity").toList) ++ post) →
        webTransmit (some s) = WebResponse.nonFiniteFallback)
    ∧ (∀ s pre post : List Char, s = pre ++ ((("NaN").toList) ++ post) →
        webTransmit (some s) = WebResponse.nonFiniteFallback)
    ∧ (∀ s : List Char, goContains s (("Infinity").toList) = false →
        goContains s (("NaN").toList) = false →
        webTransmit (some s) = WebResponse.payload s) := by
  refine ⟨rfl, ?_, ?_, ?_⟩
  · rintro s pre post rfl
    simp only [webTransmit]
    rw [goContains_append pre _ post, Bool.true_or]
    rfl
  · rintro s pre post rfl
    simp only [webTransmit]
    rw [goContains_append pre _ post, Bool.or_true]
    rfl
  · intro s h1 h2
    simp only [webTransmit]
    rw [h1, h2]
    rfl

/-- Witness for C8: `"xInfinityz"` triggers the non-finite fallback. -/
theorem C8_serialization_guard_witness :
    webTransmit (some (("xInfinityz").toList)) = WebResponse.nonFiniteFallback :=
  C8_serialization_guard.2.1 (("xInfinityz").toList) (("x").toList)
    (("z").toList) (by decide)
